import Mathlib

/-!
Shallow embedding of the backups-api program (src/main.go).

The program shells out to an external `borg` binary; we model one external
invocation by a `RawResult` (captured stdout, stderr and whether the exit
status was zero) and pass the external world in as a function
`run : String → RawResult` mapping the `repoOrArchive` argument of
`borgList` to the observed process result.  Directory listing of the root
(`ioutil.ReadDir`) is modelled by an `Option (List DirEntry)` argument
(`none` = the listing itself could not be read).  All parsing functions are
translated line by line from the Go source.
-/

/-- Result of running the external list command once:
captured stdout, captured stderr, and whether the exit status was 0. -/
structure RawResult where
  stdout : String
  stderr : String
  exitOk : Bool
deriving DecidableEq, Repr

/-- One entry of the root directory listing (`os.FileInfo` as used:
only `Name()` and `IsDir()` are consulted). -/
structure DirEntry where
  name : String
  isDir : Bool
deriving DecidableEq, Repr

/-- Parsed timestamp (Go `time.Time` restricted to what this program
produces: second precision, UTC). -/
structure GoTime where
  year : Nat
  month : Nat
  day : Nat
  hour : Nat
  minute : Nat
  second : Nat
deriving DecidableEq, Repr

/-- `type archive struct { Name, RepoName string; Datetime time.Time }` -/
structure archive where
  name : String
  repoName : String
  datetime : GoTime
deriving DecidableEq, Repr

/-- `type file struct { Path string; Mtime time.Time }` -/
structure file where
  path : String
  mtime : GoTime
deriving DecidableEq, Repr

/-- `type jsonFormat struct { Repo, Date, MysqlDate string }` -/
structure jsonFormat where
  repo : String
  date : String
  mysqlDate : String
deriving DecidableEq, Repr

/-- Whitespace as recognised by Go `strings.Fields` (`unicode.IsSpace`),
restricted to the Latin-1 range (the characters that can occur in the
listings handled here). -/
def goIsSpace (c : Char) : Bool :=
  c = ' ' || c = '\t' || c = '\n' || c = '\x0b' || c = '\x0c' || c = '\r' ||
    c.toNat = 133 || c.toNat = 160

/-- Accumulating worker for `goFields`; `acc` holds the current field
reversed. -/
def goFieldsAux : List Char → List Char → List String
  | [], acc => if acc.isEmpty then [] else [String.mk acc.reverse]
  | c :: cs, acc =>
    if goIsSpace c then
      if acc.isEmpty then goFieldsAux cs []
      else String.mk acc.reverse :: goFieldsAux cs []
    else goFieldsAux cs (c :: acc)

/-- Go `strings.Fields`: split around runs of whitespace. -/
def goFields (s : String) : List String :=
  goFieldsAux s.data []

/-- Accumulating worker for `splitLines`. -/
def splitLinesAux : List Char → List Char → List String
  | [], acc => [String.mk acc.reverse]
  | c :: cs, acc =>
    if c = '\n' then String.mk acc.reverse :: splitLinesAux cs []
    else splitLinesAux cs (c :: acc)

/-- Go `strings.Split(s, "\n")`: empty pieces are kept. -/
def splitLines (s : String) : List String :=
  splitLinesAux s.data []

/-- Go `strings.Join(xs, " ")`. -/
def joinSpace : List String → String
  | [] => ""
  | [x] => x
  | x :: xs => x ++ " " ++ joinSpace xs

/-- Go `bytes.Buffer.ReadString('\n')`: the prefix up to and including the
first newline, or the whole input when it holds no newline. -/
def readLine : List Char → List Char
  | [] => []
  | c :: cs => if c = '\n' then [c] else c :: readLine cs

/-- Go `path.Join` as used on already-clean paths. -/
def pathJoin (a b : String) : String :=
  a ++ "/" ++ b

/-- ASCII digit test (Go `isDigit`). -/
def isDigitChar (c : Char) : Bool :=
  48 ≤ c.toNat && c.toNat ≤ 57

/-- Numeric value of an ASCII digit. -/
def digitVal (c : Char) : Nat :=
  c.toNat - 48

/-- ASCII lower-casing, as the Go time-layout matcher does. -/
def lowerAscii (c : Char) : Char :=
  if 65 ≤ c.toNat && c.toNat ≤ 90 then Char.ofNat (c.toNat + 32) else c

/-- The short weekday names of the Go time package, lower-cased. -/
def shortDayNames : List (List Char) :=
  [['s','u','n'], ['m','o','n'], ['t','u','e'], ['w','e','d'],
   ['t','h','u'], ['f','r','i'], ['s','a','t']]

/-- Layout element `Mon`: consume a three-letter weekday name
(case-insensitively); the parsed weekday is not validated against the
date, matching Go. -/
def parseWeekday : List Char → Option (List Char)
  | a :: b :: c :: rest =>
    if [lowerAscii a, lowerAscii b, lowerAscii c] ∈ shortDayNames then some rest
    else none
  | _ => none

/-- Layout element `2006`: exactly four digits. -/
def parse4Digits : List Char → Option (Nat × List Char)
  | a :: b :: c :: d :: rest =>
    if isDigitChar a && isDigitChar b && isDigitChar c && isDigitChar d then
      some (((digitVal a * 10 + digitVal b) * 10 + digitVal c) * 10 + digitVal d, rest)
    else none
  | _ => none

/-- Zero-padded layout elements (`01`, `02`, `04`, `05`): exactly two
digits. -/
def parse2Digits : List Char → Option (Nat × List Char)
  | a :: b :: rest =>
    if isDigitChar a && isDigitChar b then some (digitVal a * 10 + digitVal b, rest)
    else none
  | _ => none

/-- Unpadded layout element `15`: one or two digits. -/
def parseNum2Flex : List Char → Option (Nat × List Char)
  | [] => none
  | [a] => if isDigitChar a then some (digitVal a, []) else none
  | a :: b :: rest =>
    if isDigitChar a then
      if isDigitChar b then some (digitVal a * 10 + digitVal b, rest)
      else some (digitVal a, b :: rest)
    else none

/-- Consume one literal layout character. -/
def expectChar (c : Char) : List Char → Option (List Char)
  | x :: rest => if x = c then some rest else none
  | _ => none

/-- Go leap-year rule. -/
def isLeap (y : Nat) : Bool :=
  y % 4 = 0 && (y % 100 ≠ 0 || y % 400 = 0)

/-- Days in the given month of the given year (Go `daysIn`). -/
def daysIn (m y : Nat) : Nat :=
  if m = 2 then (if isLeap y then 29 else 28)
  else if m = 4 || m = 6 || m = 9 || m = 11 then 30
  else 31

/-- Final range validation of Go `time.Parse` (month, day, hour, minute,
second ranges), producing the parsed time. -/
def mkValidated (y mo d h mi s : Nat) (rest : List Char) : Option GoTime :=
  if rest = [] ∧ 1 ≤ mo ∧ mo ≤ 12 ∧ 1 ≤ d ∧ d ≤ daysIn mo y ∧
      h < 24 ∧ mi < 60 ∧ s < 60 then
    some ⟨y, mo, d, h, mi, s⟩
  else none

/-- Go `time.Parse("Mon, 2006-01-02 15:04:05", s)`: weekday name, literal
comma and space, 4-digit year, dashes, 2-digit month and day, space,
1-or-2-digit hour, colons, 2-digit minute and second; the whole value must
be consumed and all fields must be in range. -/
def goTimeParse (s : String) : Option GoTime := do
  let r ← parseWeekday s.data
  let r ← expectChar ',' r
  let r ← expectChar ' ' r
  let (y, r) ← parse4Digits r
  let r ← expectChar '-' r
  let (mo, r) ← parse2Digits r
  let r ← expectChar '-' r
  let (d, r) ← parse2Digits r
  let r ← expectChar ' ' r
  let (h, r) ← parseNum2Flex r
  let r ← expectChar ':' r
  let (mi, r) ← parse2Digits r
  let r ← expectChar ':' r
  let (s2, r) ← parse2Digits r
  mkValidated y mo d h mi s2 r

/-- Mixed-radix key realising the chronological order of `GoTime` values
(faithful on the range-validated values `goTimeParse` produces). -/
def timeKey (t : GoTime) : Nat :=
  ((((t.year * 13 + t.month) * 32 + t.day) * 24 + t.hour) * 60 + t.minute) * 60 + t.second

/-- Field ranges guaranteed for every `goTimeParse` result. -/
def gtValid (t : GoTime) : Prop :=
  t.year ≤ 9999 ∧ 1 ≤ t.month ∧ t.month ≤ 12 ∧ 1 ≤ t.day ∧ t.day ≤ 31 ∧
    t.hour ≤ 23 ∧ t.minute ≤ 59 ∧ t.second ≤ 59

/-- Fuel-driven matcher realising Go `path.Match` semantics for patterns
built from literal characters and `*` (the only constructs appearing in
the patterns of this program): `*` matches any possibly-empty run of
non-separator characters, and the whole name must be consumed. -/
def matchFuel : Nat → List Char → List Char → Bool
  | 0, _, _ => false
  | fuel + 1, p, s =>
    match p, s with
    | [], s => s.isEmpty
    | '*' :: ps, [] => matchFuel fuel ps []
    | '*' :: ps, c :: cs =>
      matchFuel fuel ps (c :: cs) || (decide (c ≠ '/') && matchFuel fuel ('*' :: ps) cs)
    | c :: ps, d :: ds => decide (c = d) && matchFuel fuel ps ds
    | _ :: _, [] => false

/-- Go `path.Match(pattern, name)` for the patterns of this program. -/
def goPathMatch (pattern name : String) : Bool :=
  matchFuel (pattern.length + name.length + 1) pattern.data name.data

/-- The glob patterns hard-coded in `findMysqlBackups`. -/
def mysqlGlobs : List String :=
  ["var/backups/mysql/daily/*.sql.gz", "var/backups/mysql/daily/*/ibdata1"]

/-- The glob loop of `findMysqlBackups`: try each pattern in order,
stopping at the first hit. -/
def globLoopMatch : List String → String → Bool
  | [], _ => false
  | g :: gs, p => if goPathMatch g p then true else globLoopMatch gs p

/-- `borgList`: run the external list command; on non-zero exit the error
is the first line of stderr as read by `ReadString('\n')` (delimiter
included), on success the captured stdout is returned and stderr is
dropped. -/
def borgList (run : String → RawResult) (repoOrArchive : String) : Except String String :=
  let r := run repoOrArchive
  let line := readLine r.stderr.data
  if r.exitOk then .ok r.stdout else .error (String.mk line)

/-- `isRepository`: probe a path with the list command; an invocation
failure is returned as an error, success classifies the path as a
repository. -/
def isRepository (run : String → RawResult) (repoPath : String) : Except String Bool :=
  match borgList run repoPath with
  | .error e => .error e
  | .ok _ => .ok true

/-- The entry loop of `findRepositories`: skip non-directories, probe each
directory, return the probe error as the scan error (aborting the
loop), and collect the names that probed as repositories. -/
def findRepositoriesLoop (run : String → RawResult) (root : String) :
    List DirEntry → List String × Option String
  | [] => ([], none)
  | f :: fs =>
    if f.isDir then
      match isRepository run (pathJoin root f.name) with
      | .error e => ([], some e)
      | .ok isRepo =>
        let rest := findRepositoriesLoop run root fs
        if isRepo then (f.name :: rest.1, rest.2) else rest
    else
      findRepositoriesLoop run root fs

/-- `findRepositories`: when the root listing itself cannot be read
(`readDir = none`) the error is swallowed and an empty list with no error
is returned (`return repoNames, nil`); otherwise the entry loop runs. -/
def findRepositories (run : String → RawResult) (root : String)
    (readDir : Option (List DirEntry)) : List String × Option String :=
  match readDir with
  | none => ([], none)
  | some files => findRepositoriesLoop run root files

/-- The line loop of `findArchives`: lines with fewer than 4 fields are
skipped; otherwise fields 1-3 are rejoined and parsed, an unparsable
timestamp failing the whole listing with `Can't parse …`. -/
def parseArchiveLines (repoName : String) : List String → Except String (List archive)
  | [] => .ok []
  | line :: rest =>
    let fields := goFields line
    if fields.length < 4 then parseArchiveLines repoName rest
    else
      let name := fields.headD ""
      let str := joinSpace ((fields.drop 1).take 3)
      match goTimeParse str with
      | none => .error ("Can't parse " ++ str)
      | some dt =>
        match parseArchiveLines repoName rest with
        | .error e => .error e
        | .ok as => .ok ({ name := name, repoName := repoName, datetime := dt } :: as)

/-- `findArchives`: list the repository at `root/repoName` and parse each
stdout line into an archive record. -/
def findArchives (run : String → RawResult) (root repoName : String) :
    Except String (List archive) :=
  match borgList run (pathJoin root repoName) with
  | .error e => .error e
  | .ok stdout => parseArchiveLines repoName (splitLines stdout)

/-- Insert one element into a list using the comparator `less`
(the ordering contract of `slice.Sort`). -/
def insertBy (less : α → α → Bool) (x : α) : List α → List α
  | [] => [x]
  | y :: ys => if less x y then x :: y :: ys else y :: insertBy less x ys

/-- Comparator sort modelling `slice.Sort(data, less)`. -/
def sortBy (less : α → α → Bool) : List α → List α
  | [] => []
  | x :: xs => insertBy less x (sortBy less xs)

/-- The repository loop of `getMostRecentArchivesPerRepository`: a listing
error aborts everything, an empty listing is skipped, and otherwise the
last archive of the listing is kept. -/
def mostRecentLoop (run : String → RawResult) (root : String) :
    List String → Except String (List archive)
  | [] => .ok []
  | r :: rs =>
    match findArchives run root r with
    | .error e => .error e
    | .ok newArchives =>
      match mostRecentLoop run root rs with
      | .error e => .error e
      | .ok acc =>
        match newArchives.getLast? with
        | none => .ok acc
        | some a => .ok (a :: acc)

/-- `getMostRecentArchivesPerRepository`: resolve the root, scan it for
repositories (a scan error aborts), then keep the last
archive. -/
def getMostRecentArchivesPerRepository (run : String → RawResult)
    (rootE : Except String String) (readDir : Option (List DirEntry)) :
    Except String (List archive) :=
  match rootE with
  | .error e => .error e
  | .ok root =>
    match findRepositories run root readDir with
    | (_, some e) => .error e
    | (repoNames, none) => mostRecentLoop run root repoNames

/-- Processing of one line of an archive-contents listing
(`findMysqlBackups` loop body): `none` when the line is skipped
(fewer than 8 fields, size `"0"`, or no glob hit), an error when the
timestamp of a matching line does not parse, and the file record
otherwise. -/
def processContentLine (line : String) : Option (Except String file) :=
  let fields := goFields line
  if fields.length < 8 then none
  else
    let size := fields.getD 3 ""
    let datetimeStr := joinSpace ((fields.drop 4).take 3)
    let p := fields.getD 7 ""
    if size = "0" then none
    else if globLoopMatch mysqlGlobs p then
      match goTimeParse datetimeStr with
      | none => some (.error ("Can't parse " ++ datetimeStr))
      | some dt => some (.ok { path := p, mtime := dt })
    else none

/-- The line loop of `findMysqlBackups`. -/
def findMysqlBackupsLines : List String → Except String (List file)
  | [] => .ok []
  | l :: ls =>
    match processContentLine l with
    | none => findMysqlBackupsLines ls
    | some (.error e) => .error e
    | some (.ok f) =>
      match findMysqlBackupsLines ls with
      | .error e => .error e
      | .ok fs => .ok (f :: fs)

/-- `findMysqlBackups`: list the contents of `root/repoName::archiveName`
and collect the non-zero-size glob-matching file records. -/
def findMysqlBackups (run : String → RawResult) (rootE : Except String String)
    (a : archive) : Except String (List file) :=
  match rootE with
  | .error e => .error e
  | .ok root =>
    match borgList run (pathJoin root a.repoName ++ "::" ++ a.name) with
    | .error e => .error e
    | .ok stdout => findMysqlBackupsLines (splitLines stdout)

/-- The comparator of the `slice.Sort` in `getMostRecentMysqlBackupInArchive`:
`mysqlBackups[i].Mtime.After(mysqlBackups[j].Mtime)`. -/
def fileAfter (a b : file) : Bool :=
  Nat.blt (timeKey b.mtime) (timeKey a.mtime)

/-- `getMostRecentMysqlBackupInArchive`: a listing error is swallowed
(`return nil, nil`); otherwise the backups are sorted newest-first and the
head, if any, is returned — the error component is always `none`. -/
def getMostRecentMysqlBackupInArchive (run : String → RawResult)
    (rootE : Except String String) (a : archive) : Option file × Option String :=
  match findMysqlBackups run rootE a with
  | .error _ => (none, none)
  | .ok mysqlBackups =>
    match sortBy fileAfter mysqlBackups with
    | [] => (none, none)
    | b :: _ => (some b, none)

/-- Fixed-width decimal rendering, most significant digit first (the
zero-padded fields of the Go RFC3339 output). -/
def digitsFixed : Nat → Nat → List Char
  | 0, _ => []
  | k + 1, n => digitsFixed k (n / 10) ++ [Nat.digitChar (n % 10)]

/-- Character list of `t.Format(time.RFC3339)` for a UTC time with zero
nanoseconds. -/
def fmtChars (t : GoTime) : List Char :=
  digitsFixed 4 t.year ++ ('-' :: (digitsFixed 2 t.month ++ ('-' ::
    (digitsFixed 2 t.day ++ ('T' :: (digitsFixed 2 t.hour ++ (':' ::
    (digitsFixed 2 t.minute ++ (':' :: (digitsFixed 2 t.second ++ ['Z']))))))))))

/-- Go `t.Format(time.RFC3339)` for the times this program produces. -/
def fmtRFC3339 (t : GoTime) : String :=
  String.mk (fmtChars t)

/-- The comparator of the `slice.Sort` in `recentHandler`:
`archives[i].Datetime.Before(archives[j].Datetime)`. -/
def archiveBefore (a b : archive) : Bool :=
  Nat.blt (timeKey a.datetime) (timeKey b.datetime)

/-- The JSON item built for one archive in the `recentHandler` loop. -/
def itemOf (run : String → RawResult) (rootE : Except String String)
    (a : archive) : jsonFormat :=
  match (getMostRecentMysqlBackupInArchive run rootE a).1 with
  | none => { repo := a.repoName, date := fmtRFC3339 a.datetime, mysqlDate := "" }
  | some f => { repo := a.repoName, date := fmtRFC3339 a.datetime,
                mysqlDate := fmtRFC3339 f.mtime }

/-- The item loop of `recentHandler`: an error from the per-archive lookup
would abort the request (it never fires, see `getMostRecentMysqlBackupInArchive`). -/
def recentLoop (run : String → RawResult) (rootE : Except String String) :
    List archive → Except String (List jsonFormat)
  | [] => .ok []
  | a :: as =>
    match getMostRecentMysqlBackupInArchive run rootE a with
    | (_, some e) => .error e
    | (mb, none) =>
      let item : jsonFormat :=
        match mb with
        | none => { repo := a.repoName, date := fmtRFC3339 a.datetime, mysqlDate := "" }
        | some f => { repo := a.repoName, date := fmtRFC3339 a.datetime,
                      mysqlDate := fmtRFC3339 f.mtime }
      match recentLoop run rootE as with
      | .error e => .error e
      | .ok items => .ok (item :: items)

/-- The successful path of `recentHandler`: aggregate, sort ascending by
`Datetime`, and build the JSON items in sorted order. -/
def recentItems (run : String → RawResult) (rootE : Except String String)
    (readDir : Option (List DirEntry)) : Except String (List jsonFormat) :=
  match getMostRecentArchivesPerRepository run rootE readDir with
  | .error e => .error e
  | .ok archives => recentLoop run rootE (sortBy archiveBefore archives)

/-- Lexicographic (byte-wise) order on character lists, non-strict. -/
def charsLe : List Char → List Char → Bool
  | [], _ => true
  | _ :: _, [] => false
  | a :: as, b :: bs =>
    if a.toNat < b.toNat then true
    else if b.toNat < a.toNat then false
    else charsLe as bs

/-- Lexicographic (byte-wise) order on character lists, strict. -/
def charsLt : List Char → List Char → Bool
  | [], [] => false
  | [], _ :: _ => true
  | _ :: _, [] => false
  | a :: as, b :: bs =>
    if a.toNat < b.toNat then true
    else if b.toNat < a.toNat then false
    else charsLt as bs

/-- Lexicographic order on strings (ascending "by date" on RFC3339
strings). -/
def strLe (a b : String) : Bool :=
  charsLe a.data b.data

/-- Concrete environment: every invocation fails with a probe diagnostic. -/
def cRunProbeFail : String → RawResult :=
  fun _ => ⟨"", "probe failed\n", false⟩

/-- Concrete environment: every invocation fails, stderr holding two lines. -/
def cRunGone : String → RawResult :=
  fun _ => ⟨"", "repository does not exist\nfoo\n", false⟩

/-- Concrete environment: every invocation succeeds with stdout `LIST` and
a non-empty stderr. -/
def cRunOkList : String → RawResult :=
  fun _ => ⟨"LIST", "ignored warning", true⟩

/-- Concrete environment: one repository whose listing holds two archives
whose timestamps are out of order (the first is the later one). -/
def cRunOutOfOrder : String → RawResult :=
  fun _ => ⟨"a1 Wed, 2016-01-27 03:01:19\na2 Mon, 2015-10-31 03:01:19", "", true⟩

/-- Concrete environment: the listing holds one line with four fields whose
timestamp part does not parse. -/
def cRunBadTs : String → RawResult :=
  fun _ => ⟨"bad BAD BAD BAD", "", true⟩

/-- Concrete environment: archive-contents listing with two matching
artifact lines whose timestamps are out of order (the earlier one first). -/
def cRunTwoFiles : String → RawResult :=
  fun _ => ⟨"-rw-r--r-- root root 5 Sat, 2020-05-01 03:00:00 var/backups/mysql/daily/a.sql.gz\n-rw-r--r-- root root 7 Sat, 2021-05-01 03:00:00 var/backups/mysql/daily/b.sql.gz", "", true⟩

/-- Concrete environment for the full pipeline: two repositories with one
archive each (out of chronological order across repositories) and one
matching artifact inside every archive. -/
def cRunPipeline : String → RawResult := fun p =>
  if p = "/r/repo1" then ⟨"a1 Wed, 2016-01-27 03:01:19", "", true⟩
  else if p = "/r/repo2" then ⟨"b1 Sat, 2015-10-31 03:01:19", "", true⟩
  else ⟨"-rw-r--r-- root root 5 Sat, 2021-05-01 03:00:00 var/backups/mysql/daily/x.sql.gz", "", true⟩

theorem mem_insertBy {α : Type} (less : α → α → Bool) :
    ∀ (l : List α) (x a : α), a ∈ insertBy less x l ↔ a = x ∨ a ∈ l
  | [], x, a => by simp [insertBy]
  | y :: ys, x, a => by
    simp only [insertBy]
    split
    · simp only [List.mem_cons]
    · simp only [List.mem_cons, mem_insertBy less ys x a]
      tauto

theorem mem_sortBy {α : Type} (less : α → α → Bool) :
    ∀ (l : List α) (a : α), a ∈ sortBy less l ↔ a ∈ l
  | [], a => by simp [sortBy]
  | x :: xs, a => by
    simp only [sortBy, mem_insertBy less (sortBy less xs) x a,
      mem_sortBy less xs a, List.mem_cons]

theorem pairwise_insertBy {α : Type} (less : α → α → Bool)
    (hasym : ∀ a b, less a b = true → less b a = false)
    (htrans : ∀ a b c, less b a = false → less c b = false → less c a = false) :
    ∀ (l : List α) (x : α), l.Pairwise (fun a b => less b a = false) →
      (insertBy less x l).Pairwise (fun a b => less b a = false)
  | [], x, _ => by simp [insertBy]
  | y :: ys, x, hp => by
    rcases List.pairwise_cons.mp hp with ⟨hy, hys⟩
    simp only [insertBy]
    split
    · rename_i hxy
      refine List.pairwise_cons.mpr ⟨?_, hp⟩
      intro z hz
      rcases List.mem_cons.mp hz with h | h
      · subst h; exact hasym _ _ hxy
      · exact htrans x y z (hasym _ _ hxy) (hy z h)
    · rename_i hxy
      refine List.pairwise_cons.mpr ⟨?_, pairwise_insertBy less hasym htrans ys x hys⟩
      intro z hz
      rcases (mem_insertBy less ys x z).mp hz with h | h
      · subst h; exact Bool.not_eq_true _ ▸ (by simpa using hxy)
      · exact hy z h

theorem pairwise_sortBy {α : Type} (less : α → α → Bool)
    (hasym : ∀ a b, less a b = true → less b a = false)
    (htrans : ∀ a b c, less b a = false → less c b = false → less c a = false) :
    ∀ l : List α, (sortBy less l).Pairwise (fun a b => less b a = false)
  | [] => by simp [sortBy]
  | x :: xs => by
    simpa [sortBy] using
      pairwise_insertBy less hasym htrans (sortBy less xs) x
        (pairwise_sortBy less hasym htrans xs)

theorem blt_true_iff (a b : Nat) : Nat.blt a b = true ↔ a < b := by
  rw [Nat.blt_eq]

theorem blt_false_iff (a b : Nat) : Nat.blt a b = false ↔ b ≤ a := by
  rw [← Bool.not_eq_true, Nat.blt_eq]
  exact Nat.not_lt

theorem fileAfter_asym (a b : file) (h : fileAfter a b = true) :
    fileAfter b a = false := by
  simp only [fileAfter, blt_true_iff] at h
  simp only [fileAfter, blt_false_iff]
  omega

theorem fileAfter_trans (a b c : file) (h1 : fileAfter b a = false)
    (h2 : fileAfter c b = false) : fileAfter c a = false := by
  simp only [fileAfter, blt_false_iff] at *
  omega

theorem archiveBefore_asym (a b : archive) (h : archiveBefore a b = true) :
    archiveBefore b a = false := by
  simp only [archiveBefore, blt_true_iff] at h
  simp only [archiveBefore, blt_false_iff]
  omega

theorem archiveBefore_trans (a b c : archive) (h1 : archiveBefore b a = false)
    (h2 : archiveBefore c b = false) : archiveBefore c a = false := by
  simp only [archiveBefore, blt_false_iff] at *
  omega

theorem daysIn_le (m y : Nat) : daysIn m y ≤ 31 := by
  unfold daysIn
  split
  · split <;> omega
  · split <;> omega

theorem parse4Digits_le (l : List Char) (y : Nat) (r : List Char)
    (h : parse4Digits l = some (y, r)) : y ≤ 9999 := by
  match l with
  | [] => simp [parse4Digits] at h
  | [a] => simp [parse4Digits] at h
  | [a, b] => simp [parse4Digits] at h
  | [a, b, c] => simp [parse4Digits] at h
  | a :: b :: c :: d :: rest =>
    simp only [parse4Digits] at h
    split at h
    · rename_i hd
      simp only [Option.some.injEq, Prod.mk.injEq] at h
      obtain ⟨hy, -⟩ := h
      subst hy
      simp only [Bool.and_eq_true, isDigitChar, decide_eq_true_eq] at hd
      unfold digitVal
      omega
    · exact absurd h (by simp)

theorem mkValidated_valid (y mo d h mi s : Nat) (rest : List Char) (t : GoTime)
    (hy : y ≤ 9999) (hv : mkValidated y mo d h mi s rest = some t) : gtValid t := by
  unfold mkValidated at hv
  split at hv
  · rename_i hc
    obtain ⟨-, h1, h2, h3, h4, h5, h6, h7⟩ := hc
    cases hv
    dsimp only [gtValid]
    exact ⟨hy, h1, h2, h3, le_trans h4 (daysIn_le mo y), by omega, by omega, by omega⟩
  · exact absurd hv (by simp)

theorem goTimeParse_valid (s : String) (t : GoTime)
    (h : goTimeParse s = some t) : gtValid t := by
  unfold goTimeParse at h
  simp only [bind, Option.bind_eq_some] at h
  obtain ⟨r1, h1, r2, h2, r3, h3, ⟨y, r4⟩, h4, r5, h5, ⟨mo, r6⟩, h6, r7, h7,
    ⟨d, r8⟩, h8, r9, h9, ⟨hh, r10⟩, h10, r11, h11, ⟨mi, r12⟩, h12, r13, h13,
    ⟨s2, r14⟩, h14, hv⟩ := h
  exact mkValidated_valid y mo d hh mi s2 r14 t (parse4Digits_le r3 y r4 h4) hv

theorem parseArchiveLines_ok_lines (r : String) :
    ∀ (ls : List String) (as : List archive), parseArchiveLines r ls = .ok as →
      ∀ line ∈ ls, (goFields line).length < 4 ∨
        ∃ t, goTimeParse (joinSpace (((goFields line).drop 1).take 3)) = some t
  | [], as, _, line, hmem => by simp at hmem
  | l :: ls, as, h, line, hmem => by
    simp only [parseArchiveLines] at h
    rcases List.mem_cons.mp hmem with hl | hl
    · subst hl
      split at h
      · rename_i hlt
        exact Or.inl hlt
      · split at h
        · exact absurd h (by simp)
        · rename_i t ht
          exact Or.inr ⟨t, ht⟩
    · split at h
      · exact parseArchiveLines_ok_lines r ls as h line hl
      · split at h
        · exact absurd h (by simp)
        · split at h
          · exact absurd h (by simp)
          · rename_i as' has'
            exact parseArchiveLines_ok_lines r ls as' has' line hl

theorem parseArchiveLines_badline (r line : String) (ls : List String)
    (hmem : line ∈ ls) (hf : 4 ≤ (goFields line).length)
    (hp : goTimeParse (joinSpace (((goFields line).drop 1).take 3)) = none) :
    ∃ e, parseArchiveLines r ls = .error e := by
  cases h : parseArchiveLines r ls with
  | error e => exact ⟨e, rfl⟩
  | ok as =>
    rcases parseArchiveLines_ok_lines r ls as h line hmem with hlt | ⟨t, ht⟩
    · omega
    · rw [hp] at ht
      exact absurd ht (by simp)

theorem findMysqlBackupsLines_drop (line : String) (h : processContentLine line = none) :
    ∀ (pre post : List String),
      findMysqlBackupsLines (pre ++ line :: post) = findMysqlBackupsLines (pre ++ post)
  | [], post => by
    simp only [List.nil_append, findMysqlBackupsLines, h]
  | p :: ps, post => by
    have ih := findMysqlBackupsLines_drop line h ps post
    simp only [List.cons_append, findMysqlBackupsLines, List.append_eq]
    split
    · exact ih
    · rfl
    · rw [ih]

theorem findRepositoriesLoop_error (run : String → RawResult) (root : String) :
    ∀ (files : List DirEntry) (f : DirEntry) (e : String),
      f ∈ files → f.isDir = true → isRepository run (pathJoin root f.name) = .error e →
      ∃ e2, (findRepositoriesLoop run root files).2 = some e2
  | [], f, e => by simp
  | g :: gs, f, e => fun hmem hdir hprobe => by
    simp only [findRepositoriesLoop]
    rcases List.mem_cons.mp hmem with h | h
    · subst h
      rw [if_pos hdir, hprobe]
      exact ⟨e, rfl⟩
    · by_cases hg : g.isDir
      · rw [if_pos hg]
        cases hq : isRepository run (pathJoin root g.name) with
        | error e' => exact ⟨e', rfl⟩
        | ok b =>
          obtain ⟨e2, he2⟩ := findRepositoriesLoop_error run root gs f e h hdir hprobe
          refine ⟨e2, ?_⟩
          cases b <;> simp [he2]
      · rw [if_neg hg]
        exact findRepositoriesLoop_error run root gs f e h hdir hprobe

theorem mostRecentLoop_error (run : String → RawResult) (root : String) :
    ∀ (names : List String) (r e : String), r ∈ names →
      findArchives run root r = .error e →
      ∃ e2, mostRecentLoop run root names = .error e2
  | [], r, e => by simp
  | n :: ns, r, e => fun hmem herr => by
    simp only [mostRecentLoop]
    rcases List.mem_cons.mp hmem with h | h
    · subst h
      rw [herr]
      exact ⟨e, rfl⟩
    · cases hq : findArchives run root n with
      | error e' => exact ⟨e', rfl⟩
      | ok l =>
        obtain ⟨e2, he2⟩ := mostRecentLoop_error run root ns r e h herr
        rw [he2]
        cases l.getLast? <;> exact ⟨e2, rfl⟩

theorem mostRecentLoop_ok (run : String → RawResult) (root : String) :
    ∀ names : List String, (∀ r ∈ names, ∃ l, findArchives run root r = .ok l) →
      mostRecentLoop run root names = .ok (names.filterMap (fun r =>
        match findArchives run root r with
        | .ok l => l.getLast?
        | .error _ => none))
  | [] => fun _ => by simp [mostRecentLoop]
  | n :: ns => fun h => by
    obtain ⟨l, hl⟩ := h n (List.mem_cons_self n ns)
    have ih := mostRecentLoop_ok run root ns (fun r hr => h r (List.mem_cons_of_mem n hr))
    simp only [mostRecentLoop, List.filterMap_cons, hl, ih]
    cases l.getLast? <;> rfl

theorem getMostRecent_snd_none (run : String → RawResult)
    (rootE : Except String String) (a : archive) :
    (getMostRecentMysqlBackupInArchive run rootE a).2 = none := by
  unfold getMostRecentMysqlBackupInArchive
  split
  · rfl
  · split <;> rfl

theorem recentLoop_ok (run : String → RawResult) (rootE : Except String String) :
    ∀ l : List archive, recentLoop run rootE l = .ok (l.map (itemOf run rootE))
  | [] => by simp [recentLoop]
  | a :: as => by
    have h2 := getMostRecent_snd_none run rootE a
    have ih := recentLoop_ok run rootE as
    simp only [recentLoop, List.map_cons]
    cases hg : getMostRecentMysqlBackupInArchive run rootE a with
    | mk mb s =>
      rw [hg] at h2
      simp only at h2
      subst h2
      simp only [itemOf, hg, ih]

theorem readLine_eq (cs : List Char) :
    readLine cs = cs.takeWhile (fun c => !(c == '\n')) ++
      (if cs.contains '\n' then ['\n'] else []) := by
  induction cs with
  | nil => simp [readLine]
  | cons c cs ih =>
    by_cases h : c = '\n'
    · subst h
      simp [readLine, List.takeWhile, List.contains]
    · have h2 : ¬('\n' = c) := fun hh => h hh.symm
      simp only [readLine, if_neg h, List.takeWhile_cons, List.contains_cons]
      rw [ih]
      simp [h, h2]

/-- C1 counterexample: the claim is false on the code.  With a root listing
holding one candidate directory whose probe fails, the scan itself returns
that probe failure as its error; and with an unreadable root listing the
scan reports no error at all. -/
theorem findRepositories_claim_counterexample :
    findRepositories cRunProbeFail "/backups" (some [⟨"candidate", true⟩]) =
      ([], some "probe failed\n") ∧
    findRepositories cRunProbeFail "/backups" none = ([], none) :=
  ⟨rfl, rfl⟩

/-- C1 (amended): the scan never fails when the root listing itself cannot
be read — that case yields an empty result with no error — while a probe
failure (non-zero exit of the list command) for an individual candidate
subdirectory is propagated as an error of the scan. -/
theorem findRepositories_error_behavior (run : String → RawResult) (root : String) :
    findRepositories run root none = ([], none) ∧
    ∀ (files : List DirEntry) (f : DirEntry) (e : String),
      f ∈ files → f.isDir = true → isRepository run (pathJoin root f.name) = .error e →
      ∃ e2, (findRepositories run root (some files)).2 = some e2 := by
  refine ⟨rfl, ?_⟩
  intro files f e hmem hdir hprobe
  exact findRepositoriesLoop_error run root files f e hmem hdir hprobe

/-- Witness for the amended C1 theorem at a concrete environment. -/
theorem findRepositories_error_behavior_witness :
    findRepositories cRunProbeFail "/b" none = ([], none) ∧
    ∃ e2, (findRepositories cRunProbeFail "/b" (some [⟨"c", true⟩])).2 = some e2 :=
  ⟨(findRepositories_error_behavior cRunProbeFail "/b").1,
   (findRepositories_error_behavior cRunProbeFail "/b").2 [⟨"c", true⟩] ⟨"c", true⟩
     "probe failed\n" (by simp) rfl rfl⟩

/-- C5 counterexample: on non-zero exit with stderr
`"repository does not exist\nfoo\n"` the error is the first line of stderr
with its trailing newline kept, which is not the string
`"repository does not exist"` the claim asserts. -/
theorem borgList_first_line_counterexample :
    borgList cRunGone "notarepo" = .error "repository does not exist\n" ∧
    ("repository does not exist\n" : String) ≠ "repository does not exist" := by
  exact ⟨rfl, by decide⟩

/-- C5 (amended): on non-zero exit the error message is the prefix of
standard error up to and including its first newline (all later lines
discarded; the whole stderr when it has no newline), and on exit status 0
any stderr content is discarded and the captured stdout is returned with
no error. -/
theorem borgList_behavior (run : String → RawResult) (p : String) :
    ((run p).exitOk = true → borgList run p = .ok (run p).stdout) ∧
    ((run p).exitOk = false → borgList run p =
      .error (String.mk ((run p).stderr.data.takeWhile (fun c => !(c == '\n')) ++
        (if (run p).stderr.data.contains '\n' then ['\n'] else [])))) := by
  constructor
  · intro h
    simp [borgList, h]
  · intro h
    simp [borgList, h, readLine_eq]

/-- Witness for the amended C5 theorem at concrete environments. -/
theorem borgList_behavior_witness :
    borgList cRunOkList "p" = .ok "LIST" ∧
    borgList cRunGone "notarepo" = .error "repository does not exist\n" := by
  constructor
  · exact (borgList_behavior cRunOkList "p").1 rfl
  · exact ((borgList_behavior cRunGone "notarepo").2 rfl).trans (by rfl)

/-- C4: when listing the artifacts of an archive fails with any error, the
most-recent-artifact lookup returns "no backup found" with no error
(`nil, nil`), and the per-archive stage of the request handler can
therefore never abort the request. -/
theorem mysql_listing_error_swallowed (run : String → RawResult)
    (rootE : Except String String) (a : archive) (e : String)
    (h : findMysqlBackups run rootE a = .error e) :
    getMostRecentMysqlBackupInArchive run rootE a = (none, none) ∧
    ∀ l : List archive, ∃ items, recentLoop run rootE l = .ok items := by
  constructor
  · simp [getMostRecentMysqlBackupInArchive, h]
  · intro l
    exact ⟨l.map (itemOf run rootE), recentLoop_ok run rootE l⟩

/-- Witness for C4 at a concrete always-failing environment. -/
theorem mysql_listing_error_swallowed_witness :
    getMostRecentMysqlBackupInArchive cRunGone (.ok "/r")
      ⟨"a1", "repo", ⟨2016, 1, 27, 3, 1, 19⟩⟩ = (none, none) ∧
    ∃ items, recentLoop cRunGone (.ok "/r")
      [⟨"a1", "repo", ⟨2016, 1, 27, 3, 1, 19⟩⟩] = .ok items :=
  have h := mysql_listing_error_swallowed cRunGone (.ok "/r")
    ⟨"a1", "repo", ⟨2016, 1, 27, 3, 1, 19⟩⟩ "repository does not exist\n" rfl
  ⟨h.1, h.2 [⟨"a1", "repo", ⟨2016, 1, 27, 3, 1, 19⟩⟩]⟩

/-- C7: a line of an archive-contents listing whose size field (field 3)
is `"0"`, or which has fewer than 8 whitespace-delimited fields, is
excluded from the Artifact Locator result unconditionally — no glob
condition appears in the hypothesis, so even a glob-matching path is
dropped. -/
theorem zero_size_short_lines_excluded (pre post : List String) (line : String)
    (h : (goFields line).getD 3 "" = "0" ∨ (goFields line).length < 8) :
    findMysqlBackupsLines (pre ++ line :: post) = findMysqlBackupsLines (pre ++ post) := by
  apply findMysqlBackupsLines_drop
  simp only [processContentLine]
  rcases h with h | h
  · split_ifs <;> simp_all
  · split_ifs
    simp_all

/-- Witness for C7: a size-zero line whose path matches the first glob is
dropped, with a non-zero line kept around it. -/
theorem zero_size_short_lines_excluded_witness :
    globLoopMatch mysqlGlobs "var/backups/mysql/daily/x.sql.gz" = true ∧
    findMysqlBackupsLines
      (["-rw-r--r-- root root 0 Sat, 2021-05-01 03:00:00 var/backups/mysql/daily/x.sql.gz",
        "-rw-r--r-- root root 5 Sat, 2021-05-01 03:00:00 var/backups/mysql/daily/y.sql.gz"]) =
    findMysqlBackupsLines
      (["-rw-r--r-- root root 5 Sat, 2021-05-01 03:00:00 var/backups/mysql/daily/y.sql.gz"]) :=
  ⟨by decide,
   zero_size_short_lines_excluded []
     ["-rw-r--r-- root root 5 Sat, 2021-05-01 03:00:00 var/backups/mysql/daily/y.sql.gz"]
     "-rw-r--r-- root root 0 Sat, 2021-05-01 03:00:00 var/backups/mysql/daily/x.sql.gz"
     (Or.inl (by decide))⟩

/-- C2: when the scan succeeds and every listing is
well-formed, the aggregation keeps exactly the last record of each
non-empty listing (in listing order, independent of the timestamps) and
omits every repository whose listing is empty, producing no error. -/
theorem mostRecent_last_wins (run : String → RawResult) (root : String)
    (readDir : Option (List DirEntry)) (names : List String)
    (hscan : findRepositories run root readDir = (names, none))
    (hok : ∀ r ∈ names, ∃ l, findArchives run root r = .ok l) :
    getMostRecentArchivesPerRepository run (.ok root) readDir =
      .ok (names.filterMap (fun r =>
        match findArchives run root r with
        | .ok l => l.getLast?
        | .error _ => none)) := by
  have hred : getMostRecentArchivesPerRepository run (.ok root) readDir =
      (match findRepositories run root readDir with
        | (_, some e) => .error e
        | (repoNames, none) => mostRecentLoop run root repoNames) := rfl
  rw [hred, hscan]
  exact mostRecentLoop_ok run root names hok

/-- Witness for C2: a listing whose first record carries the later
timestamp still contributes its last record. -/
theorem mostRecent_last_wins_witness :
    getMostRecentArchivesPerRepository cRunOutOfOrder (.ok "/r")
      (some [⟨"repo", true⟩]) =
      .ok [⟨"a2", "repo", ⟨2015, 10, 31, 3, 1, 19⟩⟩] := by
  have h := mostRecent_last_wins cRunOutOfOrder "/r" (some [⟨"repo", true⟩]) ["repo"]
    rfl (by
      intro r hr
      simp only [List.mem_singleton] at hr
      subst hr
      exact ⟨_, rfl⟩)
  exact h.trans (by rfl)

/-- C3: a stdout line with at least the minimum field count whose rejoined
timestamp fields do not parse makes the whole listing fail, and that
parse error aborts the aggregation and the request: `findArchives`, the
aggregator and the handler pipeline all return an error, never a partial
result. -/
theorem archive_parse_error_fail_fast (run : String → RawResult) (root : String)
    (readDir : Option (List DirEntry)) (names : List String) (r : String)
    (stdout line : String)
    (hscan : findRepositories run root readDir = (names, none))
    (hr : r ∈ names)
    (hout : borgList run (pathJoin root r) = .ok stdout)
    (hline : line ∈ splitLines stdout)
    (hf : 4 ≤ (goFields line).length)
    (hp : goTimeParse (joinSpace (((goFields line).drop 1).take 3)) = none) :
    (∃ e, findArchives run root r = .error e) ∧
    (∃ e, getMostRecentArchivesPerRepository run (.ok root) readDir = .error e) ∧
    (∃ e, recentItems run (.ok root) readDir = .error e) := by
  obtain ⟨e1, he1⟩ := parseArchiveLines_badline r line (splitLines stdout) hline hf hp
  have hfa : findArchives run root r = .error e1 := by
    unfold findArchives
    rw [hout]
    exact he1
  obtain ⟨e2, he2⟩ := mostRecentLoop_error run root names r e1 hr hfa
  have hagg : getMostRecentArchivesPerRepository run (.ok root) readDir = .error e2 := by
    have hred : getMostRecentArchivesPerRepository run (.ok root) readDir =
        (match findRepositories run root readDir with
          | (_, some e) => .error e
          | (repoNames, none) => mostRecentLoop run root repoNames) := rfl
    rw [hred, hscan]
    exact he2
  refine ⟨⟨e1, hfa⟩, ⟨e2, hagg⟩, ⟨e2, ?_⟩⟩
  unfold recentItems
  rw [hagg]

/-- Witness for C3 at a concrete environment whose single listing line has
four fields and an unparsable timestamp. -/
theorem archive_parse_error_fail_fast_witness :
    (∃ e, findArchives cRunBadTs "/r" "repo" = .error e) ∧
    (∃ e, getMostRecentArchivesPerRepository cRunBadTs (.ok "/r")
      (some [⟨"repo", true⟩]) = .error e) ∧
    (∃ e, recentItems cRunBadTs (.ok "/r") (some [⟨"repo", true⟩]) = .error e) :=
  archive_parse_error_fail_fast cRunBadTs "/r" (some [⟨"repo", true⟩]) ["repo"] "repo"
    "bad BAD BAD BAD" "bad BAD BAD BAD" rfl (by simp) rfl (by decide) (by decide) (by decide)

/-- C8: on a successful artifact listing, the most-recent-backup lookup
returns an element of the listed sequence whose `modifiedAt` is maximal,
and returns "no artifact" with no error when the sequence is empty. -/
theorem mostRecentArtifact_max (run : String → RawResult)
    (rootE : Except String String) (a : archive) (l : List file)
    (h : findMysqlBackups run rootE a = .ok l) :
    (l = [] → getMostRecentMysqlBackupInArchive run rootE a = (none, none)) ∧
    (l ≠ [] → ∃ f, getMostRecentMysqlBackupInArchive run rootE a = (some f, none) ∧
      f ∈ l ∧ ∀ g ∈ l, timeKey g.mtime ≤ timeKey f.mtime) := by
  constructor
  · intro hl
    subst hl
    simp [getMostRecentMysqlBackupInArchive, h, sortBy]
  · intro hl
    cases hs : sortBy fileAfter l with
    | nil =>
      exfalso
      apply hl
      cases l with
      | nil => rfl
      | cons x xs =>
        have hx : x ∈ sortBy fileAfter (x :: xs) :=
          (mem_sortBy _ _ _).mpr (List.mem_cons_self x xs)
        rw [hs] at hx
        simp at hx
    | cons b rest =>
      refine ⟨b, ?_, ?_, ?_⟩
      · simp [getMostRecentMysqlBackupInArchive, h, hs]
      · have hb : b ∈ sortBy fileAfter l := by
          rw [hs]
          exact List.mem_cons_self b rest
        exact (mem_sortBy _ _ _).mp hb
      · intro g hg
        have hgs : g ∈ sortBy fileAfter l := (mem_sortBy _ _ _).mpr hg
        rw [hs] at hgs
        rcases List.mem_cons.mp hgs with hgb | hgrest
        · subst hgb
          exact le_refl _
        · have hp := pairwise_sortBy fileAfter fileAfter_asym fileAfter_trans l
          rw [hs] at hp
          have hrel := (List.pairwise_cons.mp hp).1 g hgrest
          simpa [fileAfter, blt_false_iff] using hrel

/-- Witness for C8: two artifacts listed out of chronological order; the
returned one has the maximal modification time. -/
theorem mostRecentArtifact_max_witness :
    ∃ f, getMostRecentMysqlBackupInArchive cRunTwoFiles (.ok "/r")
        ⟨"a1", "repo", ⟨2016, 1, 27, 3, 1, 19⟩⟩ = (some f, none) ∧
      f ∈ [⟨"var/backups/mysql/daily/a.sql.gz", ⟨2020, 5, 1, 3, 0, 0⟩⟩,
           ⟨"var/backups/mysql/daily/b.sql.gz", ⟨2021, 5, 1, 3, 0, 0⟩⟩] ∧
      ∀ g ∈ [(⟨"var/backups/mysql/daily/a.sql.gz", ⟨2020, 5, 1, 3, 0, 0⟩⟩ : file),
             ⟨"var/backups/mysql/daily/b.sql.gz", ⟨2021, 5, 1, 3, 0, 0⟩⟩],
        timeKey g.mtime ≤ timeKey f.mtime :=
  (mostRecentArtifact_max cRunTwoFiles (.ok "/r") ⟨"a1", "repo", ⟨2016, 1, 27, 3, 1, 19⟩⟩
    [⟨"var/backups/mysql/daily/a.sql.gz", ⟨2020, 5, 1, 3, 0, 0⟩⟩,
     ⟨"var/backups/mysql/daily/b.sql.gz", ⟨2021, 5, 1, 3, 0, 0⟩⟩] rfl).2 (by simp)

/-- C10: the historical 6-field listing line format passes the minimum-4
field cutoff (so it is not silently skipped), its rejoined fields 1-3 fail
the fixed timestamp pattern, and the whole listing therefore fails with a
parse error. -/
theorem historical_format_line_fails (r : String) (pre post : List String) :
    (goFields "wbb.tim-online.nl-2015-10-31  Mon Jan 2 15:04:05 2006").length = 6 ∧
    goTimeParse (joinSpace (((goFields
      "wbb.tim-online.nl-2015-10-31  Mon Jan 2 15:04:05 2006").drop 1).take 3)) = none ∧
    ∃ e, parseArchiveLines r
      (pre ++ "wbb.tim-online.nl-2015-10-31  Mon Jan 2 15:04:05 2006" :: post) =
        .error e := by
  refine ⟨by decide, by decide, ?_⟩
  exact parseArchiveLines_badline r
    "wbb.tim-online.nl-2015-10-31  Mon Jan 2 15:04:05 2006"
    (pre ++ "wbb.tim-online.nl-2015-10-31  Mon Jan 2 15:04:05 2006" :: post)
    (by simp) (by decide) (by decide)

/-- Witness for C10 at concrete surroundings. -/
theorem historical_format_line_fails_witness :
    (goFields "wbb.tim-online.nl-2015-10-31  Mon Jan 2 15:04:05 2006").length = 6 ∧
    goTimeParse (joinSpace (((goFields
      "wbb.tim-online.nl-2015-10-31  Mon Jan 2 15:04:05 2006").drop 1).take 3)) = none ∧
    ∃ e, parseArchiveLines "repo"
      ([] ++ "wbb.tim-online.nl-2015-10-31  Mon Jan 2 15:04:05 2006" :: []) = .error e :=
  historical_format_line_fails "repo" [] []

/-- C6: the artifact glob matching has shell-style semantics — the two
positive examples of the spec match, the negative path matches neither pattern,
`*` does not cross a path separator — and the pattern loop stops at the
first pattern that matches. -/
theorem glob_matching_semantics :
    goPathMatch "var/backups/mysql/daily/*.sql.gz"
      "var/backups/mysql/daily/2021-05-01.sql.gz" = true ∧
    goPathMatch "var/backups/mysql/daily/*/ibdata1"
      "var/backups/mysql/daily/x/ibdata1" = true ∧
    goPathMatch "var/backups/mysql/daily/*.sql.gz" "var/backups/other/x.sql.gz" = false ∧
    goPathMatch "var/backups/mysql/daily/*/ibdata1" "var/backups/other/x.sql.gz" = false ∧
    goPathMatch "var/backups/mysql/daily/*.sql.gz"
      "var/backups/mysql/daily/x/y.sql.gz" = false ∧
    ∀ (g : String) (gs : List String) (p : String),
      goPathMatch g p = true → globLoopMatch (g :: gs) p = true := by
  refine ⟨by decide, by decide, by decide, by decide, by decide, ?_⟩
  intro g gs p h
  simp [globLoopMatch, h]

/-- Witness for C6: the first-hit rule applied to the pattern
list on a concrete matching path. -/
theorem glob_matching_semantics_witness :
    globLoopMatch mysqlGlobs "var/backups/mysql/daily/2021-05-01.sql.gz" = true :=
  glob_matching_semantics.2.2.2.2.2 "var/backups/mysql/daily/*.sql.gz"
    ["var/backups/mysql/daily/*/ibdata1"] "var/backups/mysql/daily/2021-05-01.sql.gz"
    (by decide)

theorem charsLe_refl : ∀ xs : List Char, charsLe xs xs = true
  | [] => rfl
  | a :: as => by
    simp only [charsLe]
    rw [if_neg (lt_irrefl _), if_neg (lt_irrefl _)]
    exact charsLe_refl as

theorem charsLe_append : ∀ (xs u v : List Char), charsLe (xs ++ u) (xs ++ v) = charsLe u v
  | [], u, v => rfl
  | x :: xs, u, v => by
    simp only [List.cons_append, charsLe]
    rw [if_neg (lt_irrefl _), if_neg (lt_irrefl _)]
    exact charsLe_append xs u v

theorem charsLt_append : ∀ (xs u v : List Char), charsLt (xs ++ u) (xs ++ v) = charsLt u v
  | [], u, v => rfl
  | x :: xs, u, v => by
    simp only [List.cons_append, charsLt]
    rw [if_neg (lt_irrefl _), if_neg (lt_irrefl _)]
    exact charsLt_append xs u v

theorem charsLt_of_blocks : ∀ (xs ys u v : List Char), xs.length = ys.length →
    charsLt xs ys = true → charsLt (xs ++ u) (ys ++ v) = true
  | [], [], u, v, _, h => by simp [charsLt] at h
  | [], y :: ys, u, v, hl, h => by simp at hl
  | x :: xs, [], u, v, hl, h => by simp at hl
  | x :: xs, y :: ys, u, v, hl, h => by
    simp only [charsLt] at h
    simp only [List.cons_append, charsLt]
    by_cases h1 : x.toNat < y.toNat
    · rw [if_pos h1]
    · rw [if_neg h1] at h ⊢
      by_cases h2 : y.toNat < x.toNat
      · rw [if_pos h2] at h
        exact absurd h (by simp)
      · rw [if_neg h2] at h ⊢
        exact charsLt_of_blocks xs ys u v (by simpa using hl) h

theorem charsLe_of_lt : ∀ (xs ys : List Char), charsLt xs ys = true → charsLe xs ys = true
  | [], [], h => by simp [charsLt] at h
  | [], _ :: _, _ => rfl
  | x :: xs, [], h => by simp [charsLt] at h
  | x :: xs, y :: ys, h => by
    simp only [charsLt] at h
    simp only [charsLe]
    by_cases h1 : x.toNat < y.toNat
    · rw [if_pos h1]
    · rw [if_neg h1] at h ⊢
      by_cases h2 : y.toNat < x.toNat
      · rw [if_pos h2] at h
        exact absurd h (by simp)
      · rw [if_neg h2] at h ⊢
        exact charsLe_of_lt xs ys h

theorem digitsFixed_length : ∀ (k n : Nat), (digitsFixed k n).length = k
  | 0, _ => rfl
  | k + 1, n => by
    simp [digitsFixed, digitsFixed_length k]

theorem digitChar_mono : ∀ i, i < 10 → ∀ j, j < 10 → i < j →
    (Nat.digitChar i).toNat < (Nat.digitChar j).toNat := by decide

theorem digitsFixed_lt : ∀ (k n m : Nat), n < m → m < 10 ^ k →
    charsLt (digitsFixed k n) (digitsFixed k m) = true
  | 0, n, m, hnm, hm => by
    simp only [pow_zero] at hm
    omega
  | k + 1, n, m, hnm, hm => by
    have hdiv : n / 10 ≤ m / 10 := Nat.div_le_div_right (le_of_lt hnm)
    rcases Nat.lt_or_eq_of_le hdiv with hlt | heq
    · have hpow : (10:Nat) ^ (k + 1) = 10 ^ k * 10 := by ring
      have hm10 : m / 10 < 10 ^ k := by omega
      simp only [digitsFixed]
      exact charsLt_of_blocks _ _ _ _
        (by rw [digitsFixed_length, digitsFixed_length]) (digitsFixed_lt k _ _ hlt hm10)
    · have hmod : n % 10 < m % 10 := by omega
      simp only [digitsFixed, heq]
      rw [charsLt_append]
      simp only [charsLt]
      rw [if_pos (digitChar_mono _ (by omega) _ (by omega) hmod)]

theorem charsLe_cons (c : Char) (u v : List Char) :
    charsLe (c :: u) (c :: v) = charsLe u v := by
  simp only [charsLe]
  rw [if_neg (lt_irrefl _), if_neg (lt_irrefl _)]

theorem charsLe_strict_block (k n m : Nat) (u v : List Char) (hnm : n < m)
    (hm : m < 10 ^ k) :
    charsLe (digitsFixed k n ++ u) (digitsFixed k m ++ v) = true :=
  charsLe_of_lt _ _ (charsLt_of_blocks _ _ u v
    (by rw [digitsFixed_length, digitsFixed_length]) (digitsFixed_lt k n m hnm hm))

theorem fmt_mono (a b : GoTime) (ha : gtValid a) (hb : gtValid b)
    (h : timeKey a ≤ timeKey b) :
    strLe (fmtRFC3339 a) (fmtRFC3339 b) = true := by
  obtain ⟨ha1, ha2, ha3, ha4, ha5, ha6, ha7, ha8⟩ := ha
  obtain ⟨hb1, hb2, hb3, hb4, hb5, hb6, hb7, hb8⟩ := hb
  have hlex : a.year < b.year ∨ (a.year = b.year ∧ (a.month < b.month ∨ (a.month = b.month ∧
      (a.day < b.day ∨ (a.day = b.day ∧ (a.hour < b.hour ∨ (a.hour = b.hour ∧
      (a.minute < b.minute ∨ (a.minute = b.minute ∧ a.second ≤ b.second))))))))) := by
    unfold timeKey at h
    omega
  show charsLe (fmtChars a) (fmtChars b) = true
  unfold fmtChars
  have h102 : (10:Nat) ^ 2 = 100 := by norm_num
  have h104 : (10:Nat) ^ 4 = 10000 := by norm_num
  rcases hlex with hy | ⟨hy, hrest⟩
  · exact charsLe_strict_block 4 _ _ _ _ hy (by omega)
  · rw [hy, charsLe_append, charsLe_cons]
    rcases hrest with hmo | ⟨hmo, hrest⟩
    · exact charsLe_strict_block 2 _ _ _ _ hmo (by omega)
    · rw [hmo, charsLe_append, charsLe_cons]
      rcases hrest with hd | ⟨hd, hrest⟩
      · exact charsLe_strict_block 2 _ _ _ _ hd (by omega)
      · rw [hd, charsLe_append, charsLe_cons]
        rcases hrest with hh | ⟨hh, hrest⟩
        · exact charsLe_strict_block 2 _ _ _ _ hh (by omega)
        · rw [hh, charsLe_append, charsLe_cons]
          rcases hrest with hmi | ⟨hmi, hs⟩
          · exact charsLe_strict_block 2 _ _ _ _ hmi (by omega)
          · rw [hmi, charsLe_append, charsLe_cons]
            rcases Nat.eq_or_lt_of_le hs with hseq | hslt
            · rw [hseq]
              exact charsLe_refl _
            · exact charsLe_strict_block 2 _ _ _ _ hslt (by omega)

theorem parseArchiveLines_valid (r : String) :
    ∀ (ls : List String) (as : List archive), parseArchiveLines r ls = .ok as →
      ∀ x ∈ as, gtValid x.datetime
  | [], as, h => by
    cases h
    simp
  | l :: ls, as, h => by
    simp only [parseArchiveLines] at h
    split at h
    · exact parseArchiveLines_valid r ls as h
    · split at h
      · exact absurd h (by simp)
      · rename_i t ht
        split at h
        · exact absurd h (by simp)
        · rename_i as' has'
          cases h
          intro x hx
          rcases List.mem_cons.mp hx with hxa | hxas
          · subst hxa
            exact goTimeParse_valid _ t ht
          · exact parseArchiveLines_valid r ls as' has' x hxas

theorem findArchives_valid (run : String → RawResult) (root rn : String)
    (as : List archive) (h : findArchives run root rn = .ok as) :
    ∀ x ∈ as, gtValid x.datetime := by
  unfold findArchives at h
  cases hb : borgList run (pathJoin root rn) with
  | error e =>
    rw [hb] at h
    exact absurd h (by simp)
  | ok stdout =>
    rw [hb] at h
    exact parseArchiveLines_valid rn (splitLines stdout) as h

theorem mostRecentLoop_valid (run : String → RawResult) (root : String) :
    ∀ (names : List String) (as : List archive),
      mostRecentLoop run root names = .ok as → ∀ x ∈ as, gtValid x.datetime
  | [], as, h => by
    cases h
    simp
  | n :: ns, as, h => by
    cases hfa : findArchives run root n with
    | error e =>
      simp only [mostRecentLoop, hfa] at h
      exact absurd h (by simp)
    | ok l =>
      cases hrec : mostRecentLoop run root ns with
      | error e =>
        simp only [mostRecentLoop, hfa, hrec] at h
        exact absurd h (by simp)
      | ok acc =>
        have hacc := mostRecentLoop_valid run root ns acc hrec
        cases hl : l.getLast? with
        | none =>
          simp only [mostRecentLoop, hfa, hrec, hl, Except.ok.injEq] at h
          subst h
          exact hacc
        | some a =>
          simp only [mostRecentLoop, hfa, hrec, hl, Except.ok.injEq] at h
          subst h
          intro x hx
          rcases List.mem_cons.mp hx with hxa | hxacc
          · subst hxa
            exact findArchives_valid run root n l hfa _ (List.mem_of_mem_getLast? hl)
          · exact hacc x hxacc

theorem aggregator_valid (run : String → RawResult) (rootE : Except String String)
    (readDir : Option (List DirEntry)) (as : List archive)
    (h : getMostRecentArchivesPerRepository run rootE readDir = .ok as) :
    ∀ x ∈ as, gtValid x.datetime := by
  cases rootE with
  | error e =>
    have hred : getMostRecentArchivesPerRepository run (.error e) readDir =
        .error e := rfl
    rw [hred] at h
    exact absurd h (by simp)
  | ok root =>
    have hred : getMostRecentArchivesPerRepository run (.ok root) readDir =
        (match findRepositories run root readDir with
          | (_, some e) => .error e
          | (names, none) => mostRecentLoop run root names) := rfl
    rw [hred] at h
    cases hscan : findRepositories run root readDir with
    | mk names err =>
      rw [hscan] at h
      cases err with
      | some e => simp at h
      | none => exact mostRecentLoop_valid run root names as h

theorem processContentLine_valid (line : String) (f : file)
    (h : processContentLine line = some (.ok f)) : gtValid f.mtime := by
  simp only [processContentLine] at h
  split at h
  · exact absurd h (by simp)
  · split at h
    · exact absurd h (by simp)
    · split at h
      · split at h
        · exact absurd h (by simp)
        · rename_i t ht
          cases h
          exact goTimeParse_valid _ t ht
      · exact absurd h (by simp)

theorem findMysqlBackupsLines_valid :
    ∀ (ls : List String) (fs : List file), findMysqlBackupsLines ls = .ok fs →
      ∀ f ∈ fs, gtValid f.mtime
  | [], fs, h => by
    cases h
    simp
  | l :: ls, fs, h => by
    cases hpl : processContentLine l with
    | none =>
      simp only [findMysqlBackupsLines, hpl] at h
      exact findMysqlBackupsLines_valid ls fs h
    | some r =>
      cases r with
      | error e =>
        simp only [findMysqlBackupsLines, hpl] at h
        exact absurd h (by simp)
      | ok f0 =>
        cases hrec : findMysqlBackupsLines ls with
        | error e =>
          simp only [findMysqlBackupsLines, hpl, hrec] at h
          exact absurd h (by simp)
        | ok fs0 =>
          simp only [findMysqlBackupsLines, hpl, hrec, Except.ok.injEq] at h
          subst h
          intro f hf
          rcases List.mem_cons.mp hf with hf0 | hfs
          · subst hf0
            exact processContentLine_valid l _ hpl
          · exact findMysqlBackupsLines_valid ls fs0 hrec f hfs

theorem findMysqlBackups_valid (run : String → RawResult)
    (rootE : Except String String) (a : archive) (fs : List file)
    (h : findMysqlBackups run rootE a = .ok fs) : ∀ f ∈ fs, gtValid f.mtime := by
  cases rootE with
  | error e =>
    have hred : findMysqlBackups run (.error e) a = .error e := rfl
    rw [hred] at h
    exact absurd h (by simp)
  | ok root =>
    have hred : findMysqlBackups run (.ok root) a =
        (match borgList run (pathJoin root a.repoName ++ "::" ++ a.name) with
          | .error e => .error e
          | .ok stdout => findMysqlBackupsLines (splitLines stdout)) := rfl
    rw [hred] at h
    cases hb : borgList run (pathJoin root a.repoName ++ "::" ++ a.name) with
    | error e =>
      rw [hb] at h
      exact absurd h (by simp)
    | ok stdout =>
      rw [hb] at h
      exact findMysqlBackupsLines_valid (splitLines stdout) fs h

theorem getMostRecent_some_valid (run : String → RawResult)
    (rootE : Except String String) (a : archive) (f : file)
    (h : (getMostRecentMysqlBackupInArchive run rootE a).1 = some f) :
    gtValid f.mtime := by
  cases hfm : findMysqlBackups run rootE a with
  | error e =>
    have hred : getMostRecentMysqlBackupInArchive run rootE a = (none, none) := by
      unfold getMostRecentMysqlBackupInArchive
      rw [hfm]
    rw [hred] at h
    simp at h
  | ok l =>
    have hred : getMostRecentMysqlBackupInArchive run rootE a =
        (match sortBy fileAfter l with
          | [] => (none, none)
          | b :: _ => (some b, none)) := by
      unfold getMostRecentMysqlBackupInArchive
      rw [hfm]
    rw [hred] at h
    cases hs : sortBy fileAfter l with
    | nil =>
      simp only [hs] at h
      exact absurd h (by simp)
    | cons b rest =>
      simp only [hs, Option.some.injEq] at h
      subst h
      exact findMysqlBackups_valid run rootE a l hfm _
        ((mem_sortBy _ _ _).mp (by rw [hs]; exact List.mem_cons_self _ _))

/-- C9: every successfully produced `/recent` response is a list of items
whose `date` is the RFC3339 rendering of a range-valid timestamp, whose
`mysql_date` is either the empty string or such a rendering, and which is
sorted ascending by the `date` string (lexicographically). -/
theorem recent_response_shape_sorted (run : String → RawResult)
    (rootE : Except String String) (readDir : Option (List DirEntry))
    (items : List jsonFormat)
    (h : recentItems run rootE readDir = .ok items) :
    (∀ it ∈ items,
      (∃ t, gtValid t ∧ it.date = fmtRFC3339 t) ∧
      (it.mysqlDate = "" ∨ ∃ t, gtValid t ∧ it.mysqlDate = fmtRFC3339 t)) ∧
    items.Pairwise (fun x y => strLe x.date y.date = true) := by
  cases hagg : getMostRecentArchivesPerRepository run rootE readDir with
  | error e =>
    simp only [recentItems, hagg] at h
    exact absurd h (by simp)
  | ok archives =>
    simp only [recentItems, hagg, recentLoop_ok, Except.ok.injEq] at h
    subst h
    have hvalid : ∀ x ∈ archives, gtValid x.datetime :=
      aggregator_valid run rootE readDir archives hagg
    have hdate : ∀ a : archive, (itemOf run rootE a).date = fmtRFC3339 a.datetime := by
      intro a
      unfold itemOf
      cases (getMostRecentMysqlBackupInArchive run rootE a).1 <;> rfl
    constructor
    · intro it hit
      obtain ⟨a, ha, rfl⟩ := List.mem_map.mp hit
      have hva : gtValid a.datetime := hvalid a ((mem_sortBy _ _ _).mp ha)
      refine ⟨⟨a.datetime, hva, hdate a⟩, ?_⟩
      unfold itemOf
      cases hm : (getMostRecentMysqlBackupInArchive run rootE a).1 with
      | none => exact Or.inl rfl
      | some f =>
        exact Or.inr ⟨f.mtime, getMostRecent_some_valid run rootE a f hm, rfl⟩
    · rw [List.pairwise_map]
      have hp := pairwise_sortBy archiveBefore archiveBefore_asym archiveBefore_trans archives
      refine List.Pairwise.imp_of_mem ?_ hp
      intro a b hma hmb hrel
      have hk : timeKey a.datetime ≤ timeKey b.datetime := by
        simpa [archiveBefore, blt_false_iff] using hrel
      have hmono := fmt_mono a.datetime b.datetime
        (hvalid a ((mem_sortBy _ _ _).mp hma)) (hvalid b ((mem_sortBy _ _ _).mp hmb)) hk
      rw [hdate a, hdate b]
      exact hmono

/-- Witness for C9 on a concrete two-repository environment whose archives
arrive out of chronological order. -/
theorem recent_response_shape_sorted_witness :
    (∀ it ∈ [({ repo := "repo2", date := "2015-10-31T03:01:19Z",
                mysqlDate := "2021-05-01T03:00:00Z" } : jsonFormat),
              { repo := "repo1", date := "2016-01-27T03:01:19Z",
                mysqlDate := "2021-05-01T03:00:00Z" }],
      (∃ t, gtValid t ∧ it.date = fmtRFC3339 t) ∧
      (it.mysqlDate = "" ∨ ∃ t, gtValid t ∧ it.mysqlDate = fmtRFC3339 t)) ∧
    List.Pairwise (fun x y : jsonFormat => strLe x.date y.date = true)
      [({ repo := "repo2", date := "2015-10-31T03:01:19Z",
          mysqlDate := "2021-05-01T03:00:00Z" } : jsonFormat),
       { repo := "repo1", date := "2016-01-27T03:01:19Z",
         mysqlDate := "2021-05-01T03:00:00Z" }] :=
  recent_response_shape_sorted cRunPipeline (.ok "/r")
    (some [⟨"repo1", true⟩, ⟨"repo2", true⟩])
    [{ repo := "repo2", date := "2015-10-31T03:01:19Z",
       mysqlDate := "2021-05-01T03:00:00Z" },
     { repo := "repo1", date := "2016-01-27T03:01:19Z",
       mysqlDate := "2021-05-01T03:00:00Z" }] (by rfl)
